import Mathlib

set_option maxRecDepth 10000

/-!
Verification of the Hyperliquid funding-rate tracker against its
natural-language specification.  The Python source is shallowly embedded:
CSV files become explicit state values, pandas frames become lists of
records, machine floats become exact rationals, wall-clock instants become
integers (the source renders them as ISO-8601 UTC strings, an injective and
order-preserving encoding of the instant), and the HTTP API becomes a
function parameter.
-/

namespace FundingTracker

/-! ## Storage layer (`src/storage.py`) -/

/-- One snapshot record as produced by `fetch_funding_rates` and persisted in
the recent-rates CSV (`data/funding_rates.csv`).  Numeric fields are exact
rationals; `timestamp` is the underlying UTC instant. -/
structure SnapshotRecord where
  timestamp : Int
  symbol : String
  funding_rate : Rat
  mark_price : Rat
  day_ntl_vlm : Rat
  open_interest : Rat
deriving DecidableEq

/-- The recent-rates CSV file: whether a header row has been written, and the
data rows in file order. -/
structure FundingRatesFile where
  hasHeader : Bool
  rows : List SnapshotRecord
deriving DecidableEq

/-- The on-disk state of the recent-rates file: `none` when the file does not
exist. -/
abbrev FileState := Option FundingRatesFile

/-- `save_funding_rates` (storage.py lines 16-34): appends the given records
with `df.to_csv(..., mode='a', header=not file_exists)`.  Returns the new
file state together with whether this call wrote a header row. -/
def save_funding_rates (rates : List SnapshotRecord) (st : FileState) :
    FileState × Bool :=
  match st with
  | none => (some ⟨true, rates⟩, true)
  | some f => (some ⟨f.hasHeader, f.rows ++ rates⟩, false)

/-- The result of a storage read, mirroring a pandas frame: its column list
and its rows. -/
structure DataFrame where
  columns : List String
  rows : List SnapshotRecord
deriving DecidableEq

/-- The columns of the empty frame returned by `load_funding_rates` when the
file is absent (storage.py line 48). -/
def canonicalColumns : List String :=
  ["timestamp", "symbol", "funding_rate", "mark_price"]

/-- The header of the recent-rates file as written by the collector
(six columns, fetcher.py lines 38-45). -/
def storedColumns : List String :=
  ["timestamp", "symbol", "funding_rate", "mark_price", "day_ntl_vlm",
   "open_interest"]

/-- Milliseconds per day, the unit conversion behind `timedelta(days=days)`. -/
def msPerDay : Int := 86400000

/-- Ordering used by `df.sort_values("timestamp")`. -/
def tsLe (a b : SnapshotRecord) : Prop :=
  a.timestamp ≤ b.timestamp

instance : DecidableRel tsLe := fun a b =>
  inferInstanceAs (Decidable (a.timestamp ≤ b.timestamp))

instance : IsTotal SnapshotRecord tsLe :=
  ⟨fun a b => Int.le_total a.timestamp b.timestamp⟩

instance : IsTrans SnapshotRecord tsLe :=
  ⟨fun _ _ _ h1 h2 => le_trans h1 h2⟩

/-- `load_funding_rates` (storage.py lines 37-57): absent file yields the
empty four-column frame; otherwise the rows (parsed from a header-bearing
file), filtered to `timestamp ≥ now − days` when `days` is given, sorted
ascending by timestamp.  `now` is the instant of `datetime.now(timezone.utc)`. -/
def load_funding_rates (now : Int) (days : Option Nat) (st : FileState) :
    DataFrame :=
  match st with
  | none => ⟨canonicalColumns, []⟩
  | some f =>
    let rows := match days with
      | none => f.rows
      | some d => f.rows.filter (fun r => decide (now - d * msPerDay ≤ r.timestamp))
    ⟨storedColumns, List.insertionSort tsLe rows⟩

/-- `get_latest_rates` (storage.py lines 60-75): loads everything and keeps
the rows whose timestamp equals the maximum timestamp present; empty input is
returned as is. -/
def get_latest_rates (now : Int) (st : FileState) : DataFrame :=
  let df := load_funding_rates now none st
  if df.rows.isEmpty then df
  else
    let latest := ((df.rows.map (·.timestamp)).max?).getD 0
    ⟨df.columns, df.rows.filter (fun r => decide (r.timestamp = latest))⟩

/-- `get_available_symbols` (storage.py lines 78-90): sorted de-duplicated
symbol list. -/
def get_available_symbols (now : Int) (st : FileState) : List String :=
  let df := load_funding_rates now none st
  if df.rows.isEmpty then []
  else List.insertionSort (· ≤ ·) ((df.rows.map (·.symbol)).dedup)

/-! ## History-backfill client (`src/history_fetcher.py`) -/

/-- One raw entry of a `fundingHistory` page as returned by the exchange.
`time` is the epoch-millisecond stamp; the string-encoded decimals
(`fundingRate`, `premium`) parsed by `float(...)` are exact rationals. -/
structure HistoryEntry where
  coin : String
  time : Int
  fundingRate : Rat
  premium : Rat
deriving DecidableEq

/-- One accumulated row of `fetch_funding_history`.  The source stores
`timestamp` as the ISO-8601 UTC rendering of `time`; that rendering is an
injective, order-preserving encoding of the instant, so the row keeps the
instant itself. -/
structure HistoryRow where
  timestamp : Int
  symbol : String
  funding_rate : Rat
  premium : Rat
deriving DecidableEq

/-- The per-entry conversion in the pagination loop (history_fetcher.py
lines 58-64). -/
def convertEntry (e : HistoryEntry) : HistoryRow :=
  ⟨e.time, e.coin, e.fundingRate, e.premium⟩

/-- The pagination loop of `fetch_funding_history` (history_fetcher.py lines
52-72).  The exchange API is modelled as a function from `startTime` to the
page `_fetch_funding_page` returns for it, and the `while True` loop carries
explicit fuel.  Returns the accumulated rows together with the number of page
requests issued, or `none` when fuel runs out. -/
def fetchPages (api : Int → List HistoryEntry) :
    Nat → Int → Option (List HistoryRow × Nat)
  | 0, _ => none
  | fuel + 1, start_time =>
    let data := api start_time
    if data.isEmpty then some ([], 1)
    else
      let rows := data.map convertEntry
      if data.length < 500 then some (rows, 1)
      else
        match fetchPages api fuel (((data.getLast?).map (·.time)).getD 0 + 1) with
        | none => none
        | some (rest, n) => some (rows ++ rest, n + 1)

/-- `fetch_funding_history` (history_fetcher.py lines 39-74): pagination
starting at time 0. -/
def fetch_funding_history (api : Int → List HistoryEntry) (fuel : Nat) :
    Option (List HistoryRow × Nat) :=
  fetchPages api fuel 0

/-- `MAX_RETRIES` (config.py line 13). -/
def MAX_RETRIES : Nat := 3

/-- The per-symbol retry loop of `fetch_all_funding_history`
(history_fetcher.py lines 98-109): `fetch attempt` is the outcome of
`fetch_funding_history(coin)` on the given 1-based attempt; an exception is
an `Except.error`.  All attempts exhausted yields `none` (the symbol is
logged and skipped). -/
def retryLoop (fetch : Nat → Except String (List HistoryRow)) :
    Nat → Nat → Option (List HistoryRow)
  | 0, _ => none
  | remaining + 1, attempt =>
    match fetch attempt with
    | .ok rows => some rows
    | .error _ => retryLoop fetch remaining (attempt + 1)

/-- Up to `MAX_RETRIES` attempts, starting at attempt 1. -/
def retryFetch (fetch : Nat → Except String (List HistoryRow)) :
    Option (List HistoryRow) :=
  retryLoop fetch MAX_RETRIES 1

/-- The row accumulation of `fetch_all_funding_history` (history_fetcher.py
lines 92-109): per coin, the retried fetch's rows are appended to `all_rows`;
a coin that exhausted its attempts contributes nothing. -/
def collectRows (coins : List String)
    (fetchCoin : String → Nat → Except String (List HistoryRow)) :
    List HistoryRow :=
  coins.foldl (fun acc coin =>
    match retryFetch (fetchCoin coin) with
    | some rows => acc ++ rows
    | none => acc) []

/-- `df.sort_values(["symbol", "timestamp"])`: lexicographic order on
(symbol, timestamp). -/
def histLe (a b : HistoryRow) : Prop :=
  a.symbol < b.symbol ∨ (a.symbol = b.symbol ∧ a.timestamp ≤ b.timestamp)

instance : DecidableRel histLe := fun a b =>
  inferInstanceAs (Decidable (_ ∨ _))

instance : IsTotal HistoryRow histLe := by
  constructor
  intro a b
  rcases lt_trichotomy a.symbol b.symbol with h | h | h
  · exact Or.inl (Or.inl h)
  · rcases le_total a.timestamp b.timestamp with ht | ht
    · exact Or.inl (Or.inr ⟨h, ht⟩)
    · exact Or.inr (Or.inr ⟨h.symm, ht⟩)
  · exact Or.inr (Or.inl h)

instance : IsTrans HistoryRow histLe := by
  constructor
  intro a b c hab hbc
  rcases hab with h1 | ⟨h1, ht1⟩ <;> rcases hbc with h2 | ⟨h2, ht2⟩
  · exact Or.inl (lt_trans h1 h2)
  · exact Or.inl (h2 ▸ h1)
  · exact Or.inl (h1 ▸ h2)
  · exact Or.inr ⟨h1.trans h2, le_trans ht1 ht2⟩

/-- `fetch_all_funding_history` (history_fetcher.py lines 77-128): collects
rows per coin with retries, then — when any rows were collected — sorts them
globally by (symbol, timestamp) and overwrites the full-history file with
them; otherwise leaves the file untouched.  Returns the resulting frame's
rows and the new file state. -/
def fetch_all_funding_history (coins : List String)
    (fetchCoin : String → Nat → Except String (List HistoryRow))
    (oldFile : Option (List HistoryRow)) :
    List HistoryRow × Option (List HistoryRow) :=
  let all_rows := collectRows coins fetchCoin
  if all_rows.isEmpty then ([], oldFile)
  else
    let sorted := List.insertionSort histLe all_rows
    (sorted, some sorted)

/-! ## History dashboard carry index (`history_dashboard.py`) -/

/-- Running product with seed `acc`: the elementwise values of pandas
`cumprod` applied after scaling by the seed. -/
def cumprodFrom (acc : Rat) : List Rat → List Rat
  | [] => []
  | x :: xs => (acc * x) :: cumprodFrom (acc * x) xs

/-- The carry-index transform of the history dashboard
(history_dashboard.py lines 118-122): per symbol,
`(1 + funding_rate).cumprod() * 100` over the symbol's rate series. -/
def carryIndex (rates : List Rat) : List Rat :=
  (cumprodFrom 1 (rates.map (fun r => 1 + r))).map (fun p => p * 100)

/-- Modelled from the spec's words, for comparison with `carryIndex`: the
index at period `t` is 100 times the cumulative product of `(1 + rate)` over
periods `0..t`. -/
def carrySpecIndex (rates : List Rat) : List Rat :=
  (List.range rates.length).map
    (fun t => 100 * ((rates.take (t + 1)).foldl (fun a r => a * (1 + r)) 1))

/-! ## Spreadsheet exporter (`src/sheets.py`) -/

/-- Python's `round`: round half to even at `ndigits` decimal digits, on
exact rationals. -/
def pyRound (x : Rat) (ndigits : Nat) : Rat :=
  let scaled := x * (10 ^ ndigits)
  let fl : Int := ⌊scaled⌋
  let n : Int :=
    if scaled - fl < 1/2 then fl
    else if 1/2 < scaled - fl then fl + 1
    else if fl % 2 = 0 then fl else fl + 1
  (n : Rat) / (10 ^ ndigits)

/-- One row as appended to the worksheet (header
`timestamp, symbol, funding_rate, funding_rate_pct, annualized_rate,
mark_price`, sheets.py lines 75-76). -/
structure SheetRow where
  timestamp : Int
  symbol : String
  funding_rate : Rat
  funding_rate_pct : Rat
  annualized_rate : Rat
  mark_price : Rat
deriving DecidableEq

/-- The per-record row preparation of `append_funding_rates`
(sheets.py lines 99-112): `funding_pct = funding_rate * 100`,
`annualized = funding_pct * 24 * 365`, with `round(funding_pct, 6)` and
`round(annualized, 2)` placed in the sheet row. -/
def mkSheetRow (r : SnapshotRecord) : SheetRow :=
  let funding_rate := r.funding_rate
  let funding_pct := funding_rate * 100
  let annualized := funding_pct * 24 * 365
  ⟨r.timestamp, r.symbol, funding_rate, pyRound funding_pct 6,
   pyRound annualized 2, r.mark_price⟩

/-- The external spreadsheet boundary: outcome of
`get_gspread_client` (auth), `get_or_create_spreadsheet` (carrying the
spreadsheet URL on success), `get_or_create_worksheet`, and whether the batch
`append_rows` call succeeds.  An `Except.error` stands for a raised
exception. -/
structure SheetsStub where
  auth : Except String Unit
  spreadsheet : Except String String
  worksheet : Except String Unit
  appendOk : Bool

/-- `append_funding_rates` (sheets.py lines 83-122): runs the
client/spreadsheet/worksheet chain, prepares all rows, and issues one batch
`append_rows` call; every failure anywhere in the chain is caught, yielding
`none` instead of a URL.  The second component records the batch append calls
issued (each with the rows passed to it). -/
def append_funding_rates (stub : SheetsStub) (rates : List SnapshotRecord) :
    Option String × List (List SheetRow) :=
  match stub.auth with
  | .error _ => (none, [])
  | .ok _ =>
    match stub.spreadsheet with
    | .error _ => (none, [])
    | .ok url =>
      match stub.worksheet with
      | .error _ => (none, [])
      | .ok _ =>
        let rows := rates.map mkSheetRow
        if stub.appendOk then (some url, [rows]) else (none, [rows])

/-! ## Concrete data used by the witnesses -/

/-- A stub spreadsheet boundary whose create call raises. -/
def stubCreateFails : SheetsStub :=
  ⟨.ok (), .error "create failed", .ok (), true⟩

/-- Concrete record used to witness the round-trip theorem. -/
def recBTC : SnapshotRecord := ⟨0, "BTC", mkRat 1 10000, 50000, 0, 0⟩

/-- The first of two collection runs: timestamp 1000, three symbols. -/
def runA : List SnapshotRecord :=
  [⟨1000, "BTC", mkRat 1 10000, 50000, 0, 0⟩,
   ⟨1000, "ETH", mkRat 2 10000, 3000, 0, 0⟩,
   ⟨1000, "SOL", mkRat 3 10000, 150, 0, 0⟩]

/-- The second of two collection runs: timestamp 2000, the same three
symbols. -/
def runB : List SnapshotRecord :=
  [⟨2000, "BTC", mkRat (-1) 10000, 50100, 0, 0⟩,
   ⟨2000, "ETH", mkRat 1 20000, 3010, 0, 0⟩,
   ⟨2000, "SOL", mkRat 1 5000, 151, 0, 0⟩]

/-- A recent-rates file holding run A followed by run B. -/
def twoRunFile : FileState := some ⟨true, runA ++ runB⟩

/-- A 500-entry first page: entry `i` at time `i`, all for coin "BTC". -/
def page500 : List HistoryEntry :=
  (List.range 500).map (fun i => ⟨"BTC", i, mkRat 1 10000, 0⟩)

/-- A 499-entry first page. -/
def page499 : List HistoryEntry :=
  (List.range 499).map (fun i => ⟨"BTC", i, mkRat 1 10000, 0⟩)

/-- Stub API returning exactly 500 entries on the first page and an empty
second page. -/
def stubApi500 : Int → List HistoryEntry :=
  fun t => if t = 0 then page500 else []

/-- Stub API returning 499 entries on the first page. -/
def stubApi499 : Int → List HistoryEntry :=
  fun t => if t = 0 then page499 else []

/-- Stub per-coin fetch always failing for "FAIL" and succeeding immediately
for everything else. -/
def stubFetchMixed : String → Nat → Except String (List HistoryRow) :=
  fun c _ => if c = "FAIL" then .error "boom" else .ok [⟨0, c, mkRat 1 10000, 0⟩]

/-- Stub per-coin fetch that always succeeds with one row. -/
def stubFetchOk : String → Nat → Except String (List HistoryRow) :=
  fun c _ => .ok [⟨0, c, mkRat 1 10000, 0⟩]

/-- C6: when the recent-rates file does not exist, `load_funding_rates`
returns an empty result whose columns are exactly
`timestamp, symbol, funding_rate, mark_price`, for every `days` argument
(and it is a total function, so it never raises). -/
theorem load_funding_rates_absent_empty (now : Int) (days : Option Nat) :
    load_funding_rates now days none =
      ⟨["timestamp", "symbol", "funding_rate", "mark_price"], []⟩ := rfl

/-- C1: saving a non-empty list of well-formed records into a fresh store and
then loading with no day filter returns exactly the saved rows (the load
re-orders them by timestamp, so "exactly" is permutation of rows), with every
`funding_rate` and `mark_price` value preserved to full precision. -/
theorem save_then_load_roundtrip (now : Int) (rates : List SnapshotRecord)
    (hne : rates ≠ []) :
    (load_funding_rates now none (save_funding_rates rates none).1).rows.Perm
        rates ∧
    ((load_funding_rates now none (save_funding_rates rates none).1).rows.map
        (fun r => (r.funding_rate, r.mark_price))).Perm
      (rates.map (fun r => (r.funding_rate, r.mark_price))) := by
  have hperm :
      (load_funding_rates now none (save_funding_rates rates none).1).rows.Perm
        rates := by
    simpa [save_funding_rates, load_funding_rates] using
      List.perm_insertionSort tsLe rates
  exact ⟨hperm, hperm.map _⟩

/-- Witness for C1 at the one-record list `[recBTC]`. -/
theorem save_then_load_roundtrip_witness :
    (load_funding_rates 0 none (save_funding_rates [recBTC] none).1).rows.Perm
        [recBTC] ∧
    ((load_funding_rates 0 none (save_funding_rates [recBTC] none).1).rows.map
        (fun r => (r.funding_rate, r.mark_price))).Perm
      ([recBTC].map (fun r => (r.funding_rate, r.mark_price))) :=
  save_then_load_roundtrip 0 [recBTC] (by simp)

/-- C7: `get_latest_rates` returns exactly the rows of the loaded data whose
timestamp is maximal (equivalently, is ≥ every timestamp present), and the
empty data yields an empty result. -/
theorem get_latest_rates_spec (now : Int) (st : FileState) :
    (get_latest_rates now st).rows =
      (load_funding_rates now none st).rows.filter
        (fun r => decide (∀ s ∈ (load_funding_rates now none st).rows,
          s.timestamp ≤ r.timestamp)) ∧
    ((load_funding_rates now none st).rows = [] →
      (get_latest_rates now st).rows = []) := by
  haveI : Std.Antisymm (fun (a b : Int) => a ≤ b) :=
    ⟨@fun _ _ h1 h2 => le_antisymm h1 h2⟩
  constructor
  · rcases h : (load_funding_rates now none st).rows with _ | ⟨x, xs⟩
    · simp [get_latest_rates, h]
    · rcases hmax : ((x :: xs).map (·.timestamp)).max? with _ | m
      · exact absurd (List.max?_eq_none_iff.mp hmax) (by simp)
      · have hmem : m ∈ (x :: xs).map (·.timestamp) ∧
            ∀ b ∈ (x :: xs).map (·.timestamp), b ≤ m :=
          (List.max?_eq_some_iff (fun _ => le_refl _)
            (fun a b => max_choice a b) (fun _ _ _ => max_le_iff)).mp hmax
        have hgl : (get_latest_rates now st).rows =
            (x :: xs).filter (fun r => decide (r.timestamp = m)) := by
          simp only [get_latest_rates, h, hmax]
          simp
        rw [hgl]
        refine List.filter_congr ?_
        intro r hr
        refine decide_eq_decide.mpr ?_
        constructor
        · intro hrm s hs
          have := hmem.2 s.timestamp (List.mem_map_of_mem (·.timestamp) hs)
          omega
        · intro hall
          obtain ⟨s, hs, hsm⟩ := List.mem_map.mp hmem.1
          have h1 : m ≤ r.timestamp := hsm ▸ hall s hs
          have h2 : r.timestamp ≤ m :=
            hmem.2 r.timestamp (List.mem_map_of_mem (·.timestamp) hr)
          omega
  · intro h
    simp [get_latest_rates, h]

/-- Witness for C7: on a file with run A at time 1000 and run B at time 2000
over the same three symbols, `get_latest_rates` returns exactly run B's three
rows. -/
theorem get_latest_rates_spec_witness :
    (get_latest_rates 0 twoRunFile).rows = runB :=
  ((get_latest_rates_spec 0 twoRunFile).1).trans (by decide)

/-- C2: the pagination of `fetch_funding_history` starts at time 0 and
terminates exactly when a page is empty or shorter than 500 entries,
otherwise continuing at (last entry's time + 1 ms); in particular the
500-then-empty stub costs exactly 2 requests for 500 rows and the 499 stub
exactly 1 request for 499 rows. -/
theorem fetch_funding_history_pagination :
    (∀ (api : Int → List HistoryEntry) (fuel : Nat) (t : Int),
      api t = [] → fetchPages api (fuel + 1) t = some ([], 1)) ∧
    (∀ (api : Int → List HistoryEntry) (fuel : Nat) (t : Int),
      api t ≠ [] → (api t).length < 500 →
      fetchPages api (fuel + 1) t = some ((api t).map convertEntry, 1)) ∧
    (∀ (api : Int → List HistoryEntry) (fuel : Nat) (t : Int),
      ¬ (api t).length < 500 →
      fetchPages api (fuel + 1) t =
        (fetchPages api fuel ((((api t).getLast?).map (·.time)).getD 0 + 1)).map
          (fun p => ((api t).map convertEntry ++ p.1, p.2 + 1))) ∧
    (fetch_funding_history stubApi500 10).map (fun p => (p.1.length, p.2)) =
      some (500, 2) ∧
    (fetch_funding_history stubApi499 10).map (fun p => (p.1.length, p.2)) =
      some (499, 1) := by
  refine ⟨?_, ?_, ?_, by decide, by decide⟩
  · intro api fuel t h
    simp [fetchPages, h]
  · intro api fuel t h1 h2
    have he : (api t).isEmpty = false := by
      simpa [List.isEmpty_iff] using h1
    simp [fetchPages, he, h2]
  · intro api fuel t h
    have hne : api t ≠ [] := by
      intro hnil
      rw [hnil] at h
      simp at h
    have he : (api t).isEmpty = false := by
      simpa [List.isEmpty_iff] using hne
    simp only [fetchPages, he, Bool.false_eq_true, if_false, if_neg h]
    rcases hrec : fetchPages api fuel ((((api t).getLast?).map (·.time)).getD 0 + 1)
      with _ | ⟨rest, n⟩ <;> simp [hrec]

/-- Witness for C2: an everywhere-empty API makes the loop stop after a
single request. -/
theorem fetch_funding_history_pagination_witness :
    fetchPages (fun _ => []) 1 0 = some ([], 1) :=
  fetch_funding_history_pagination.1 (fun _ => []) 0 0 rfl

/-- C9: after every call to `save_funding_rates` the file exists (even for an
empty input list), the call writes a header row iff the file was absent just
before the write; hence a first-ever call with an empty list creates the file,
and every call on an existing file writes no header row. -/
theorem save_funding_rates_header_spec (rates : List SnapshotRecord)
    (st : FileState) :
    (save_funding_rates rates st).1.isSome = true ∧
    (save_funding_rates rates st).2 = st.isNone ∧
    (save_funding_rates [] none).1.isSome = true ∧
    (∀ (rates2 : List SnapshotRecord) (f : FundingRatesFile),
      (save_funding_rates rates2 (some f)).2 = false) := by
  cases st <;> exact ⟨rfl, rfl, rfl, fun _ _ => rfl⟩

/-- The seed of a left fold by `max` is a lower bound of the fold. -/
theorem foldlMax_init_le (l : List Int) : ∀ a : Int, a ≤ l.foldl max a := by
  induction l with
  | nil => intro a; simp
  | cons y ys ih =>
    intro a
    exact le_trans (le_max_left a y) (ih (max a y))

/-- Every member of a list is bounded by a left fold by `max`. -/
theorem mem_le_foldlMax (l : List Int) :
    ∀ (a x : Int), x ∈ l → x ≤ l.foldl max a := by
  induction l with
  | nil => simp
  | cons y ys ih =>
    intro a x hx
    rcases List.mem_cons.mp hx with rfl | hx
    · exact le_trans (le_max_right a x) (foldlMax_init_le ys (max a x))
    · exact ih (max a y) x hx

/-- Fuel sufficiency for the pagination loop: when every entry of a page
requested at `t` has time in `[t, B]`, fuel `1 + (B + 2 - t).toNat` makes the
loop return. -/
theorem fetchPages_isSome_of_bound (api : Int → List HistoryEntry) (B : Int)
    (hmono : ∀ t, ∀ e ∈ api t, t ≤ e.time)
    (hbound : ∀ t, ∀ e ∈ api t, e.time ≤ B) :
    ∀ (k : Nat) (t : Int), 1 + (B + 2 - t).toNat ≤ k →
      (fetchPages api k t).isSome := by
  intro k
  induction k with
  | zero => intro t hk; omega
  | succ k ih =>
    intro t hk
    by_cases hemp : (api t).isEmpty = true
    · simp [fetchPages, hemp]
    · have hne : api t ≠ [] := by
        simpa [List.isEmpty_iff] using hemp
      have he : (api t).isEmpty = false := by
        simpa [List.isEmpty_iff] using hne
      by_cases hlt : (api t).length < 500
      · simp [fetchPages, he, hlt]
      · have hlastMem := List.getLast_mem hne
        have h1 : t ≤ ((api t).getLast hne).time := hmono t _ hlastMem
        have h2 : ((api t).getLast hne).time ≤ B := hbound t _ hlastMem
        have hGL : (api t).getLast? = some ((api t).getLast hne) :=
          List.getLast?_eq_getLast _ hne
        have hnext : ((((api t).getLast?).map (·.time)).getD 0 + 1) =
            ((api t).getLast hne).time + 1 := by
          rw [hGL]; simp
        have hih := ih (((api t).getLast hne).time + 1) (by omega)
        simp only [fetchPages, he, Bool.false_eq_true, if_false, if_neg hlt,
          hnext]
        rcases hfp : fetchPages api k (((api t).getLast hne).time + 1)
          with _ | ⟨rest, n⟩
        · rw [hfp] at hih
          simp at hih
        · simp [hfp]

/-- C10: `fetch_funding_history` terminates whenever every page has at most
500 entries, every entry of a page requested at time `t` has time ≥ `t`, and
the total set of history entries is finite (drawn from one finite list): some
finite fuel makes the embedded loop return. -/
theorem fetch_funding_history_terminates
    (api : Int → List HistoryEntry) (allEntries : List HistoryEntry)
    (hlen : ∀ t, (api t).length ≤ 500)
    (hmono : ∀ t, ∀ e ∈ api t, t ≤ e.time)
    (hfin : ∀ t, ∀ e ∈ api t, e ∈ allEntries) :
    ∃ fuel, (fetch_funding_history api fuel).isSome := by
  refine ⟨1 + ((allEntries.map (·.time)).foldl max 0 + 2 - 0).toNat, ?_⟩
  refine fetchPages_isSome_of_bound api ((allEntries.map (·.time)).foldl max 0)
    hmono ?_ _ 0 (by omega)
  intro t e he
  exact mem_le_foldlMax _ 0 _ (List.mem_map_of_mem (·.time) (hfin t e he))

/-- Witness for C10 at the everywhere-empty API. -/
theorem fetch_funding_history_terminates_witness :
    ∃ fuel, (fetch_funding_history (fun _ => []) fuel).isSome :=
  fetch_funding_history_terminates (fun _ => []) []
    (fun _ => by simp) (fun t e he => by simp at he)
    (fun t e he => by simp at he)

/-- C3: a symbol whose fetch raises is retried up to 3 attempts; a symbol
failing all 3 attempts is skipped without aborting, so with one
always-failing symbol and one succeeding symbol the run still returns the
successful symbol's rows (re-sorted, hence a permutation), and the embedded
run is a total function — no exception escapes. -/
theorem fetch_all_skips_failed (c1 c2 : String)
    (fetchCoin : String → Nat → Except String (List HistoryRow))
    (rows2 : List HistoryRow) (oldFile : Option (List HistoryRow))
    (hfail : ∀ attempt, ∃ e, fetchCoin c1 attempt = .error e)
    (hok : fetchCoin c2 1 = .ok rows2) :
    (fetch_all_funding_history [c1, c2] fetchCoin oldFile).1.Perm rows2 ∧
    (∀ (f : Nat → Except String (List HistoryRow)) (e1 e2 : String)
      (rows : List HistoryRow),
      f 1 = .error e1 → f 2 = .error e2 → f 3 = .ok rows →
      retryFetch f = some rows) ∧
    (∀ (f : Nat → Except String (List HistoryRow)),
      (∀ a, ∃ e, f a = .error e) → retryFetch f = none) := by
  have hloop3 : ∀ (f : Nat → Except String (List HistoryRow)),
      retryFetch f = (match f 1 with
        | .ok rows => some rows
        | .error _ => match f 2 with
          | .ok rows => some rows
          | .error _ => match f 3 with
            | .ok rows => some rows
            | .error _ => none) := by
    intro f
    show retryLoop f 3 1 = _
    rcases h1 : f 1 with e1 | r1 <;> rcases h2 : f 2 with e2 | r2 <;>
      rcases h3 : f 3 with e3 | r3 <;>
      simp only [retryLoop, h1, h2, h3]
  have hc1 : retryFetch (fetchCoin c1) = none := by
    obtain ⟨e1, h1⟩ := hfail 1
    obtain ⟨e2, h2⟩ := hfail 2
    obtain ⟨e3, h3⟩ := hfail 3
    rw [hloop3, h1, h2, h3]
  have hc2 : retryFetch (fetchCoin c2) = some rows2 := by
    rw [hloop3, hok]
  have hcollect : collectRows [c1, c2] fetchCoin = rows2 := by
    simp [collectRows, hc1, hc2]
  refine ⟨?_, ?_, ?_⟩
  · by_cases hr : rows2.isEmpty = true
    · have hnil : rows2 = [] := List.isEmpty_iff.mp hr
      simp [fetch_all_funding_history, hcollect, hnil]
    · have he : rows2.isEmpty = false := by
        rcases Bool.eq_false_or_eq_true rows2.isEmpty with h | h
        · exact absurd h hr
        · exact h
      clear hr
      simpa [fetch_all_funding_history, hcollect, he] using
        List.perm_insertionSort histLe rows2
  · intro f e1 e2 rows h1 h2 h3
    rw [hloop3, h1, h2, h3]
  · intro f hf
    obtain ⟨e1, h1⟩ := hf 1
    obtain ⟨e2, h2⟩ := hf 2
    obtain ⟨e3, h3⟩ := hf 3
    rw [hloop3, h1, h2, h3]

/-- Witness for C3: symbol "FAIL" fails all attempts, symbol "OK" succeeds,
and the run returns exactly the successful symbol's row. -/
theorem fetch_all_skips_failed_witness :
    (fetch_all_funding_history ["FAIL", "OK"] stubFetchMixed none).1.Perm
      [⟨0, "OK", mkRat 1 10000, 0⟩] :=
  (fetch_all_skips_failed "FAIL" "OK" stubFetchMixed
    [⟨0, "OK", mkRat 1 10000, 0⟩] none
    (fun _ => ⟨"boom", by simp [stubFetchMixed]⟩)
    (by simp [stubFetchMixed])).1

/-- C4: at the end of a `fetch_all_funding_history` run, if any rows were
collected the history file is entirely overwritten with the collected rows
sorted by (symbol, timestamp) — independently of the previous file content —
and otherwise the file is left untouched and the result is empty. -/
theorem fetch_all_overwrites_sorted (coins : List String)
    (fetchCoin : String → Nat → Except String (List HistoryRow))
    (oldFile : Option (List HistoryRow)) :
    (collectRows coins fetchCoin ≠ [] →
      (fetch_all_funding_history coins fetchCoin oldFile).2 =
        some (List.insertionSort histLe (collectRows coins fetchCoin)) ∧
      (fetch_all_funding_history coins fetchCoin oldFile).1.Perm
        (collectRows coins fetchCoin) ∧
      (fetch_all_funding_history coins fetchCoin oldFile).1.Sorted histLe) ∧
    (collectRows coins fetchCoin = [] →
      (fetch_all_funding_history coins fetchCoin oldFile).2 = oldFile ∧
      (fetch_all_funding_history coins fetchCoin oldFile).1 = []) := by
  constructor
  · intro hne
    have he : (collectRows coins fetchCoin).isEmpty = false := by
      simpa [List.isEmpty_iff] using hne
    refine ⟨?_, ?_, ?_⟩
    · simp [fetch_all_funding_history, he]
    · simpa [fetch_all_funding_history, he] using
        List.perm_insertionSort histLe (collectRows coins fetchCoin)
    · simpa [fetch_all_funding_history, he] using
        List.sorted_insertionSort histLe (collectRows coins fetchCoin)
  · intro hnil
    simp [fetch_all_funding_history, hnil]

/-- Witness for C4 at a one-symbol stub that collects one row. -/
theorem fetch_all_overwrites_sorted_witness :
    (fetch_all_funding_history ["BTC"] stubFetchOk none).2 =
      some (List.insertionSort histLe (collectRows ["BTC"] stubFetchOk)) ∧
    (fetch_all_funding_history ["BTC"] stubFetchOk none).1.Perm
      (collectRows ["BTC"] stubFetchOk) ∧
    (fetch_all_funding_history ["BTC"] stubFetchOk none).1.Sorted histLe :=
  (fetch_all_overwrites_sorted ["BTC"] stubFetchOk none).1 (by decide)

/-- Folding multiplication distributes over a product seed. -/
theorem foldl_mul_shift (l : List Rat) :
    ∀ a b : Rat, l.foldl (fun x y => x * y) (a * b) =
      a * l.foldl (fun x y => x * y) b := by
  induction l with
  | nil => intro a b; simp
  | cons c cs ih =>
    intro a b
    simp only [List.foldl_cons]
    rw [mul_assoc, ih]

/-- The running product equals the elementwise products of prefixes. -/
theorem cumprodFrom_eq (xs : List Rat) :
    ∀ acc : Rat, cumprodFrom acc xs =
      (List.range xs.length).map
        (fun t => acc * ((xs.take (t + 1)).foldl (fun x y => x * y) 1)) := by
  induction xs with
  | nil => intro acc; simp [cumprodFrom]
  | cons x xs ih =>
    intro acc
    simp only [cumprodFrom, List.length_cons, List.range_succ_eq_map,
      List.map_cons, List.map_map]
    refine congrArg₂ (· :: ·) ?_ ?_
    · simp [one_mul]
    · rw [ih (acc * x)]
      refine List.map_congr_left ?_
      intro t ht
      simp only [Function.comp]
      rw [List.take_succ_cons, List.foldl_cons, one_mul]
      have h := foldl_mul_shift (xs.take (t + 1)) x 1
      rw [mul_one] at h
      rw [h, ← mul_assoc]

/-- C5 (counterexample): for funding rates `[0.0001, -0.00005, 0.0002]` the
carry index after the second period is exactly `100.0049995`, which differs
from the claimed `99.995` by `0.0099995 > 1/200` — far beyond floating
rounding. -/
theorem carryIndex_trajectory_counterexample :
    (carryIndex [(1 : Rat)/10000, -(1 : Rat)/20000, (1 : Rat)/5000]).getD 1 0 =
      200009999/2000000 ∧
    (1 : Rat)/200 <
      |(carryIndex [(1 : Rat)/10000, -(1 : Rat)/20000,
          (1 : Rat)/5000]).getD 1 0 - 99995/1000| ∧
    (1 : Rat)/200 <
      |(carryIndex [(1 : Rat)/10000, -(1 : Rat)/20000,
          (1 : Rat)/5000]).getD 2 0 - 100015/1000| := by
  have h : (carryIndex [(1 : Rat)/10000, -(1 : Rat)/20000,
      (1 : Rat)/5000]).getD 1 0 = 200009999/2000000 := by
    simp only [carryIndex, cumprodFrom, List.map_cons, List.map_nil]
    norm_num
  have h2 : (carryIndex [(1 : Rat)/10000, -(1 : Rat)/20000,
      (1 : Rat)/5000]).getD 2 0 = 1000250004999/10000000000 := by
    simp only [carryIndex, cumprodFrom, List.map_cons, List.map_nil]
    norm_num
  refine ⟨h, ?_, ?_⟩
  · rw [h]
    rw [show (200009999 : Rat)/2000000 - 99995/1000 = 19999/2000000 by
      norm_num]
    rw [abs_of_pos (by norm_num : (0 : Rat) < 19999/2000000)]
    norm_num
  · rw [h2]
    rw [show (1000250004999 : Rat)/10000000000 - 100015/1000 =
      100004999/10000000000 by norm_num]
    rw [abs_of_pos (by norm_num : (0 : Rat) < 100004999/10000000000)]
    norm_num

/-- C5 (amended): the carry index is, per symbol, the cumulative product of
`(1 + funding_rate)` scaled by 100 (`index[t] = index[t-1] × (1 + rate[t])`
from 100), and for rates `[0.0001, -0.00005, 0.0002]` the index takes the
exact values `100.01, 100.0049995, 100.02500049999` (≈ 100.01 → 100.005 →
100.025), not `100.01 → 99.995 → 100.015`. -/
theorem carryIndex_spec (rates : List Rat) :
    carryIndex rates = carrySpecIndex rates ∧
    carryIndex [(1 : Rat)/10000, -(1 : Rat)/20000, (1 : Rat)/5000] =
      [10001/100, 200009999/2000000, 1000250004999/10000000000] := by
  constructor
  · unfold carryIndex carrySpecIndex
    rw [cumprodFrom_eq, List.map_map, List.length_map]
    refine List.map_congr_left ?_
    intro t ht
    simp only [Function.comp]
    rw [one_mul, ← List.map_take, List.foldl_map]
    exact mul_comm _ _
  · simp only [carryIndex, cumprodFrom, List.map_cons, List.map_nil]
    norm_num

/-- C8: `append_funding_rates` issues at most one batch append call, and when
it appends it appends all prepared rows in that single call; each prepared
row carries `funding_rate_pct = round(funding_rate × 100, 6)` and
`annualized_rate = round(funding_rate × 100 × 24 × 365, 2)`; any failure in
the auth/open-create/append chain yields no URL (the embedding is total, so
no exception escapes), and the fully successful chain yields the spreadsheet
URL. -/
theorem append_funding_rates_spec (stub : SheetsStub)
    (rates : List SnapshotRecord) :
    ((append_funding_rates stub rates).2 = [] ∨
      (append_funding_rates stub rates).2 = [rates.map mkSheetRow]) ∧
    (((∃ e, stub.auth = .error e) ∨ (∃ e, stub.spreadsheet = .error e) ∨
        (∃ e, stub.worksheet = .error e) ∨ stub.appendOk = false) →
      (append_funding_rates stub rates).1 = none) ∧
    (∀ url : String, stub.auth = .ok () → stub.spreadsheet = .ok url →
      stub.worksheet = .ok () → stub.appendOk = true →
      (append_funding_rates stub rates).1 = some url ∧
      (append_funding_rates stub rates).2 = [rates.map mkSheetRow]) ∧
    (∀ r : SnapshotRecord,
      (mkSheetRow r).funding_rate = r.funding_rate ∧
      (mkSheetRow r).funding_rate_pct = pyRound (r.funding_rate * 100) 6 ∧
      (mkSheetRow r).annualized_rate =
        pyRound (r.funding_rate * 100 * 24 * 365) 2) := by
  obtain ⟨auth, ss, ws, app⟩ := stub
  refine ⟨?_, ?_, ?_, fun r => ⟨rfl, rfl, rfl⟩⟩
  · rcases auth with e | u
    · exact Or.inl rfl
    · rcases ss with e | url
      · exact Or.inl rfl
      · rcases ws with e | u2
        · exact Or.inl rfl
        · cases app
          · exact Or.inr rfl
          · exact Or.inr rfl
  · intro h
    rcases auth with e | u
    · rfl
    · rcases ss with e | url
      · rfl
      · rcases ws with e | u2
        · rfl
        · cases app
          · rfl
          · rcases h with ⟨e, he⟩ | ⟨e, he⟩ | ⟨e, he⟩ | happ
            · exact absurd he (by simp)
            · exact absurd he (by simp)
            · exact absurd he (by simp)
            · exact absurd happ (by simp)
  · intro url hau hss hws happ
    subst hss
    subst happ
    cases hau
    cases hws
    exact ⟨rfl, rfl⟩

/-- Witness for C8: a stub client whose create call raises makes
`append_funding_rates` return no URL, without raising. -/
theorem append_funding_rates_spec_witness :
    (append_funding_rates stubCreateFails [recBTC]).1 = none :=
  (append_funding_rates_spec stubCreateFails [recBTC]).2.1
    (Or.inr (Or.inl ⟨"create failed", rfl⟩))

end FundingTracker
